import Mathlib

/-!
Shallow embedding of `src/passgen.py` (deterministic pool-based password
derivation).  Strings are modelled as `List Char`; Python string slices
become `List.take` / `List.drop`; ASCII case mapping stands in for
Python's `str.lower` / `str.upper` (the program's own classifiers are
ASCII-only, see `is_letter` / `is_upper` in the source).
-/

namespace Passgen

/-- ASCII lowercase of one character (models `str.lower` on ASCII input). -/
def asciiLower (c : Char) : Char :=
  if 'A' ≤ c ∧ c ≤ 'Z' then Char.ofNat (c.toNat + 32) else c

/-- ASCII uppercase of one character (models `str.upper` on ASCII input). -/
def asciiUpper (c : Char) : Char :=
  if 'a' ≤ c ∧ c ≤ 'z' then Char.ofNat (c.toNat - 32) else c

/-- Source `is_letter`: latin letter A-Z or a-z. -/
def is_letter (c : Char) : Bool :=
  decide ('a' ≤ c ∧ c ≤ 'z') || decide ('A' ≤ c ∧ c ≤ 'Z')

/-- Source `is_upper`: latin capital letter A-Z. -/
def is_upper (c : Char) : Bool :=
  decide ('A' ≤ c ∧ c ≤ 'Z')

/-- Source `only_letters`: lowercase the string, keep only characters a-z. -/
def only_letters (s : List Char) : List Char :=
  (s.map asciiLower).filter (fun c => decide ('a' ≤ c ∧ c ≤ 'z'))

/-- Source `sum_letter_positions`: sum of 1-based alphabet positions of the
letters of the lowercased string; other characters contribute 0. -/
def sum_letter_positions (s : List Char) : Nat :=
  (s.map asciiLower).foldl
    (fun total c => if 'a' ≤ c ∧ c ≤ 'z' then total + (c.toNat - 96) else total) 0

/-- Source `sum_digits`: sum of the values of the decimal digits of the string. -/
def sum_digits (s : List Char) : Nat :=
  s.foldl (fun total c => if c.isDigit then total + (c.toNat - 48) else total) 0

/-- Helper for `capitalize_1_3`, carrying the current 0-based index. -/
def cap13Aux (i : Nat) : List Char → List Char
  | [] => []
  | c :: rest =>
    (if (i = 0 ∨ i = 2) ∧ c.isAlpha then asciiUpper c
     else if c.isAlpha then asciiLower c else c) :: cap13Aux (i + 1) rest

/-- Source `capitalize_1_3`: characters at positions 0 and 2 uppercased when
alphabetic, every other alphabetic character lowercased, the rest unchanged. -/
def capitalize_1_3 (s : List Char) : List Char :=
  cap13Aux 0 s

/-- Whitespace strip on both ends (models Python `str.strip()`). -/
def wsStrip (s : List Char) : List Char :=
  ((s.dropWhile Char.isWhitespace).reverse.dropWhile Char.isWhitespace).reverse

/-- Strip a leading `http://` or `https://` (the `re.sub` in `site_key`). -/
def stripScheme (s : List Char) : List Char :=
  if List.isPrefixOf "https://".toList s then s.drop 8
  else if List.isPrefixOf "http://".toList s then s.drop 7
  else s

/-- Split on a separator character, Python `str.split(sep)` semantics:
the result is never empty, and empty segments are kept. -/
def splitOnC (sep : Char) : List Char → List (List Char)
  | [] => [[]]
  | c :: rest =>
    let r := splitOnC sep rest
    if c = sep then [] :: r
    else
      match r with
      | [] => [[c]]
      | h :: t => (c :: h) :: t

/-- Normalized host in `site_key`: strip whitespace, lowercase, drop the
scheme, cut at the first `/`. -/
def normHost (domain : List Char) : List Char :=
  (stripScheme ((wsStrip domain).map asciiLower)).takeWhile (fun c => c ≠ '/')

/-- Source `site_key`: second-to-last dot label of the normalized host, or
the only label when there is no dot. -/
def site_key (domain : List Char) : List Char :=
  let parts := splitOnC '.' (normHost domain)
  if 2 ≤ parts.length then parts.getD (parts.length - 2) []
  else parts.headD []

/-- Source `tag4_from_key`: first 2 + last 2 letters of the key, right-padded
with `x` to 4 characters when fewer than 4 letters exist. -/
def tag4_from_key (k : List Char) : List Char :=
  let letters := only_letters k
  if 4 ≤ letters.length then letters.take 2 ++ letters.drop (letters.length - 2)
  else (letters ++ ['x', 'x', 'x', 'x']).take 4

/-- Source `u4_from_login`: same as `tag4_from_key` on the local part of the
login (before `@`). -/
def u4_from_login (login : List Char) : List Char :=
  let letters := only_letters (login.takeWhile (fun c => c ≠ '@'))
  if 4 ≤ letters.length then letters.take 2 ++ letters.drop (letters.length - 2)
  else (letters ++ ['x', 'x', 'x', 'x']).take 4

/-- One decimal digit character. -/
def digitChar (d : Nat) : Char :=
  Char.ofNat (48 + d)

/-- Source `l2_from_key`: `len(k) mod 100`, zero-padded to two digits. -/
def l2_from_key (k : List Char) : List Char :=
  let n := k.length % 100
  [digitChar (n / 10), digitChar (n % 10)]

/-- The `year_full[-2:]` slice in `main`. -/
def y2_from_year (year_full : List Char) : List Char :=
  year_full.drop (year_full.length - 2)

/-- Worker of `build_strengthened_base`: `prev` is the previously read source
character (initially the non-letter `' '`, matching the source's empty
`prev`), `qi` the running Q index. -/
def bsbAux (q : List Char) : Nat → Char → List Char → List Char
  | _, _, [] => []
  | qi, prev, ch :: rest =>
    if is_letter ch then
      if !is_letter prev || (is_upper prev != is_upper ch) then
        q.getD (qi % q.length) 'x' :: ch :: bsbAux q (qi + 1) ch rest
      else
        ch :: bsbAux q qi ch rest
    else
      ch :: bsbAux q qi ch rest

/-- Source `build_strengthened_base`: before every letter that follows a
non-letter or a letter of the other case, insert the next Q character. -/
def build_strengthened_base (s0 : List Char) (q_seq : List Char) : List Char :=
  bsbAux q_seq 0 ' ' s0

/-- Source `compute_sym`: `(SYM, idx, sy)` with
`idx = (Σpos T + Σpos U + Σdigits year + r) mod 10` and `SYM = P[idx]`
(indexing modelled as `List.get?`). -/
def compute_sym (T U year_full : List Char) (p_seq : List Char) (r_shift : Nat) :
    Option Char × Nat × Nat :=
  let sy := sum_digits year_full
  let idx := (sum_letter_positions T + sum_letter_positions U + sy + r_shift) % 10
  (p_seq.get? idx, idx, sy)

/-- Source `choose_pool_index`: `(Σpos K + Σpos U + r) mod pool_size`. -/
def choose_pool_index (Kletters Uletters : List Char) (r_shift pool_size : Nat) : Nat :=
  (sum_letter_positions Kletters + sum_letter_positions Uletters + r_shift) % pool_size

/-- Source `cut_sstar_for_interleave`: cut S* at `d1 = idx % 4 + 2` and then
`d2 = syear % 3 + 2` further characters. -/
def cut_sstar_for_interleave (sstar : List Char) (idx syear : Nat) :
    List Char × List Char × List Char :=
  let d1 := idx % 4 + 2
  let d2 := syear % 3 + 2
  (sstar.take d1, (sstar.drop d1).take d2, sstar.drop (d1 + d2))

/-- Source `assemble_interleaved`: `SYM + S1 + T^ + S2 + L2 + S3 + Y2 + U^`. -/
def assemble_interleaved (sstar sym Tcap L2 Y2 Ucap : List Char) (idx syear : Nat) :
    List Char :=
  let cut := cut_sstar_for_interleave sstar idx syear
  sym ++ cut.1 ++ Tcap ++ cut.2.1 ++ L2 ++ cut.2.2 ++ Y2 ++ Ucap

/-- Source `assemble_classic`: `S* + SYM + T^ + L2 + Y2 + U^`. -/
def assemble_classic (sstar sym Tcap L2 Y2 Ucap : List Char) : List Char :=
  sstar ++ sym ++ Tcap ++ L2 ++ Y2 ++ Ucap

/-- Source `pepper_to_shift`: `r = Σpos(W) mod pool_size`. -/
def pepper_to_shift (pepper_word : List Char) (pool_size : Nat) : Nat :=
  sum_letter_positions pepper_word % pool_size

/-- The derivation core of `main` (lines 299-368), after all validation has
passed: tags, shift, pool index, symbol, assembly.  `none` models an
uncaught index error (pool or P-sequence too short). -/
def derive (domain login year_full : List Char) (pool : List (List Char))
    (pool_size : Nat) (pepper p_seq : List Char) (classic : Bool) :
    Option (List Char) :=
  let Y2 := y2_from_year year_full
  let syear := sum_digits year_full
  let K := site_key domain
  let Kletters := only_letters K
  let T := tag4_from_key K
  let Tcap := capitalize_1_3 T
  let L2 := l2_from_key K
  let U := u4_from_login login
  let Ucap := capitalize_1_3 U
  let Uletters_full := only_letters (login.takeWhile (fun c => c ≠ '@'))
  let r_shift := pepper_to_shift pepper pool_size
  let i := choose_pool_index Kletters Uletters_full r_shift pool_size
  match pool.get? i with
  | none => none
  | some sstar =>
    match compute_sym T U year_full p_seq r_shift with
    | (none, _, _) => none
    | (some sym, idx, _) =>
      if classic then some (assemble_classic sstar [sym] Tcap L2 Y2 Ucap)
      else some (assemble_interleaved sstar [sym] Tcap L2 Y2 Ucap idx syear)

/-- Outcome of one run of `main` with already-resolved inputs: a usage error
(process exit code 2), a printed password (exit code 0), or an uncaught
exception. -/
inductive MainRes where
  | usage : MainRes
  | ok : List Char → MainRes
  | crash : MainRes
deriving DecidableEq

/-- Model of `main` (lines 282-371) over resolved inputs: the pool-size
bounds check, the year shape check, the pool length check, the pepper
emptiness check, then the derivation core. -/
def mainModel (domain login year : List Char) (pool : List (List Char))
    (pool_size : Nat) (pepper p_seq : List Char) (classic : Bool) : MainRes :=
  if ¬ (3 ≤ pool_size ∧ pool_size ≤ 8) then .usage
  else
    let year_full := wsStrip year
    if ¬ (2 ≤ year_full.length ∧ year_full.length ≤ 4 ∧ year_full.all Char.isDigit) then
      .usage
    else if pool.length < pool_size then .usage
    else if pepper = [] then .usage
    else
      match derive domain login year_full pool pool_size pepper p_seq classic with
      | some pw => .ok pw
      | none => .crash

/-- The qualifying-position predicate of the strengthening rule: some letter
of the string is directly preceded by a non-letter or by a letter of the
other case. -/
def hasQualPair : List Char → Bool
  | a :: b :: rest =>
    (is_letter b && (!is_letter a || (is_upper a != is_upper b))) || hasQualPair (b :: rest)
  | _ => false

/-- `splitOnC` never returns the empty list (Python `str.split` semantics). -/
theorem splitOnC_ne_nil (sep : Char) (l : List Char) : splitOnC sep l ≠ [] := by
  cases l with
  | nil => simp [splitOnC]
  | cons c rest =>
    simp only [splitOnC]
    split
    · simp
    · cases splitOnC sep rest <;> simp

/-!  Claim theorems. -/

/-- C1: on the golden inputs (domain yandex.ru, login user@gmail.com, year
2005, pool size 3, the three-entry pool, pepper "pepper", default P), the
program prints exactly `Gamma23456&YaEx0605UsEr` in classic mode and exactly
`&GammYaExa230645605UsEr` in interleaved mode. -/
theorem c1_golden_run :
    mainModel "yandex.ru".toList "user@gmail.com".toList "2005".toList
        ["Alpha12345".toList, "Beta678901".toList, "Gamma23456".toList] 3
        "pepper".toList "!@#$%^&*+?".toList true
      = MainRes.ok "Gamma23456&YaEx0605UsEr".toList
    ∧ mainModel "yandex.ru".toList "user@gmail.com".toList "2005".toList
        ["Alpha12345".toList, "Beta678901".toList, "Gamma23456".toList] 3
        "pepper".toList "!@#$%^&*+?".toList false
      = MainRes.ok "&GammYaExa230645605UsEr".toList := by
  constructor <;> rfl

/-- C2: the interleaved assembly is `SYM + S1 + T^ + S2 + L2 + S3 + Y2 + U^`
with `S1 = S*[0:d1]`, `S2 = S*[d1:d1+d2]`, `S3 = S*[d1+d2:]`, where
`d1 = idx % 4 + 2` and `d2 = syear % 3 + 2`. -/
theorem c2_interleaved_shape (sstar sym Tcap L2 Y2 Ucap : List Char) (idx syear : Nat) :
    assemble_interleaved sstar sym Tcap L2 Y2 Ucap idx syear
      = sym ++ sstar.take (idx % 4 + 2) ++ Tcap
          ++ (sstar.drop (idx % 4 + 2)).take (syear % 3 + 2) ++ L2
          ++ sstar.drop ((idx % 4 + 2) + (syear % 3 + 2)) ++ Y2 ++ Ucap := rfl

/-- C3: the classic assembly is the straight concatenation
`S* + SYM + T^ + L2 + Y2 + U^`, with S* whole and unmodified. -/
theorem c3_classic_shape (sstar sym Tcap L2 Y2 Ucap : List Char) :
    assemble_classic sstar sym Tcap L2 Y2 Ucap
      = sstar ++ sym ++ Tcap ++ L2 ++ Y2 ++ Ucap := rfl

/-- C5: the three interleave segments concatenate back to the original S*,
for every string and all cut parameters. -/
theorem c5_segments_reconstruct (sstar : List Char) (idx syear : Nat) :
    (cut_sstar_for_interleave sstar idx syear).1
        ++ (cut_sstar_for_interleave sstar idx syear).2.1
        ++ (cut_sstar_for_interleave sstar idx syear).2.2 = sstar := by
  simp only [cut_sstar_for_interleave]
  rw [List.append_assoc, ← List.drop_drop (syear % 3 + 2) (idx % 4 + 2) sstar,
    List.take_append_drop, List.take_append_drop]

/-- C4: with `r = Σpos(W) mod pool_size`, the pool index equals
`(Σpos(K_letters) + Σpos(U_letters_full) + r) mod pool_size` and is below
`pool_size`, and the symbol index equals
`(Σpos(T) + Σpos(U) + Σdigits(year) + r) mod 10`, is below 10, and selects
`SYM = P_sequence[idx]`. -/
theorem c4_selector_formulas (pool_size : Nat) (h : 3 ≤ pool_size ∧ pool_size ≤ 8)
    (W Kletters Uletters T U year_full p_seq : List Char) :
    choose_pool_index Kletters Uletters (pepper_to_shift W pool_size) pool_size
        = (sum_letter_positions Kletters + sum_letter_positions Uletters
            + pepper_to_shift W pool_size) % pool_size
      ∧ choose_pool_index Kletters Uletters (pepper_to_shift W pool_size) pool_size
          < pool_size
      ∧ (compute_sym T U year_full p_seq (pepper_to_shift W pool_size)).2.1
          = (sum_letter_positions T + sum_letter_positions U + sum_digits year_full
              + pepper_to_shift W pool_size) % 10
      ∧ (compute_sym T U year_full p_seq (pepper_to_shift W pool_size)).2.1 < 10
      ∧ (compute_sym T U year_full p_seq (pepper_to_shift W pool_size)).1
          = p_seq.get? ((compute_sym T U year_full p_seq (pepper_to_shift W pool_size)).2.1) :=
  ⟨rfl, Nat.mod_lt _ (by omega), rfl, Nat.mod_lt _ (by omega), rfl⟩

/-- Witness for C4 at the golden inputs (pool size 3, pepper "pepper"). -/
theorem c4_selector_formulas_witness :
    ((3 : Nat) ≤ 3 ∧ (3 : Nat) ≤ 8)
    ∧ choose_pool_index "yandex".toList "user".toList
        (pepper_to_shift "pepper".toList 3) 3 < 3
    ∧ (compute_sym "yaex".toList "user".toList "2005".toList "!@#$%^&*+?".toList
        (pepper_to_shift "pepper".toList 3)).2.1 < 10 :=
  ⟨⟨by decide, by decide⟩,
    (c4_selector_formulas 3 ⟨by decide, by decide⟩ "pepper".toList "yandex".toList
      "user".toList "yaex".toList "user".toList "2005".toList "!@#$%^&*+?".toList).2.1,
    (c4_selector_formulas 3 ⟨by decide, by decide⟩ "pepper".toList "yandex".toList
      "user".toList "yaex".toList "user".toList "2005".toList "!@#$%^&*+?".toList).2.2.2.1⟩

/-- The first-2-plus-last-2-with-padding pattern always yields 4 characters. -/
theorem tag4_pattern_length (letters : List Char) :
    (if 4 ≤ letters.length then letters.take 2 ++ letters.drop (letters.length - 2)
     else (letters ++ ['x', 'x', 'x', 'x']).take 4).length = 4 := by
  split
  · simp only [List.length_append, List.length_take, List.length_drop]
    omega
  · simp only [List.length_take, List.length_append, List.length_cons, List.length_nil]
    omega

/-- C6: for every domain, login and well-formed 2-4 digit year, the derived
tags have fixed widths: `len T = 4`, `len U = 4`, `len L2 = 2`, `len Y2 = 2`,
padding applying when fewer than 4 letters exist. -/
theorem c6_tag_widths (domain login year_full : List Char)
    (hy : 2 ≤ year_full.length ∧ year_full.length ≤ 4 ∧ year_full.all Char.isDigit) :
    (tag4_from_key (site_key domain)).length = 4
    ∧ (u4_from_login login).length = 4
    ∧ (l2_from_key (site_key domain)).length = 2
    ∧ (y2_from_year year_full).length = 2 := by
  refine ⟨tag4_pattern_length _, tag4_pattern_length _, rfl, ?_⟩
  unfold y2_from_year
  rw [List.length_drop]
  omega

/-- Witness for C6 at the golden inputs. -/
theorem c6_tag_widths_witness :
    (2 ≤ "2005".toList.length ∧ "2005".toList.length ≤ 4
        ∧ "2005".toList.all Char.isDigit)
    ∧ (tag4_from_key (site_key "yandex.ru".toList)).length = 4
    ∧ (u4_from_login "user@gmail.com".toList).length = 4
    ∧ (l2_from_key (site_key "yandex.ru".toList)).length = 2
    ∧ (y2_from_year "2005".toList).length = 2 :=
  ⟨by decide,
    c6_tag_widths "yandex.ru".toList "user@gmail.com".toList "2005".toList
      ⟨by decide, by decide, by decide⟩⟩

/-- Label selection in `site_key` yields a member of the label list, hence a
non-empty label when all labels are non-empty. -/
theorem site_key_label_ne (parts : List (List Char)) (hne : parts ≠ [])
    (h : ∀ p ∈ parts, p ≠ []) :
    (if 2 ≤ parts.length then parts.getD (parts.length - 2) [] else parts.headD [])
      ≠ [] := by
  split
  · next hlen =>
      have hlt : parts.length - 2 < parts.length := by omega
      rw [List.getD_eq_getElem _ _ hlt]
      exact h _ (List.getElem_mem hlt)
  · cases parts with
    | nil => exact absurd rfl hne
    | cons a t => exact h a (List.mem_cons_self a t)

/-- C8 counterexample: the domain `"."` is non-empty, yet `site_key` returns
the empty string (both dot labels are empty, and the second-to-last one is
selected). -/
theorem c8_counterexample :
    ".".toList ≠ ([] : List Char) ∧ site_key ".".toList = [] := by
  constructor <;> decide

/-- C8 amended: `site_key` returns a non-empty string for every domain whose
normalized host splits into dot-separated labels that are all non-empty. -/
theorem c8_site_key_nonempty (domain : List Char)
    (h : ∀ p ∈ splitOnC '.' (normHost domain), p ≠ []) :
    site_key domain ≠ [] := by
  refine site_key_label_ne (splitOnC '.' (normHost domain))
    (splitOnC_ne_nil '.' (normHost domain)) h

/-- Witness for C8 amended at the golden domain. -/
theorem c8_site_key_nonempty_witness :
    (∀ p ∈ splitOnC '.' (normHost "yandex.ru".toList), p ≠ [])
    ∧ site_key "yandex.ru".toList ≠ [] :=
  ⟨by decide, c8_site_key_nonempty "yandex.ru".toList (by decide)⟩

/-- C9 counterexample: a run whose pool holds 4 entries while `pool_size` is
3 does not report a usage error; it derives and prints a password. -/
theorem c9_counterexample :
    (["Alpha12345".toList, "Beta678901".toList, "Gamma23456".toList,
        "Zzz".toList] : List (List Char)).length ≠ 3
    ∧ mainModel "yandex.ru".toList "user@gmail.com".toList "2005".toList
        ["Alpha12345".toList, "Beta678901".toList, "Gamma23456".toList,
          "Zzz".toList] 3 "pepper".toList "!@#$%^&*+?".toList false
      = MainRes.ok "&GammYaExa230645605UsEr".toList := by
  constructor
  · decide
  · rfl

/-- C9 amended: whenever the pool holds fewer entries than `pool_size`, the
run reports a usage error (exit code 2) and produces no password; a pool
with more entries than `pool_size` proceeds. -/
theorem c9_underfilled_pool_usage (domain login year : List Char)
    (pool : List (List Char)) (pool_size : Nat) (pepper p_seq : List Char)
    (classic : Bool) (h : pool.length < pool_size) :
    mainModel domain login year pool pool_size pepper p_seq classic = MainRes.usage := by
  simp [mainModel, h]

/-- Witness for C9 amended: a 2-entry pool with pool size 3. -/
theorem c9_underfilled_pool_usage_witness :
    (["Alpha12345".toList, "Beta678901".toList] : List (List Char)).length < 3
    ∧ mainModel "yandex.ru".toList "user@gmail.com".toList "2005".toList
        ["Alpha12345".toList, "Beta678901".toList] 3 "pepper".toList
        "!@#$%^&*+?".toList false
      = MainRes.usage :=
  ⟨by decide,
    c9_underfilled_pool_usage "yandex.ru".toList "user@gmail.com".toList
      "2005".toList ["Alpha12345".toList, "Beta678901".toList] 3 "pepper".toList
      "!@#$%^&*+?".toList false (by decide)⟩

/-- The derivation core reads the pepper only through `pepper_to_shift`. -/
theorem derive_pepper_congr (domain login year_full : List Char)
    (pool : List (List Char)) (pool_size : Nat) (W1 W2 p_seq : List Char)
    (classic : Bool)
    (h : sum_letter_positions W1 % pool_size = sum_letter_positions W2 % pool_size) :
    derive domain login year_full pool pool_size W1 p_seq classic
      = derive domain login year_full pool pool_size W2 p_seq classic := by
  unfold derive pepper_to_shift
  rw [h]

/-- C10: two peppers with congruent letter-position sums modulo `pool_size`
make every run identical — same usage outcome, same password — in classic
and in interleaved mode alike. -/
theorem c10_pepper_only_mod_pool_size (domain login year : List Char)
    (pool : List (List Char)) (pool_size : Nat) (W1 W2 p_seq : List Char)
    (classic : Bool) (hW1 : W1 ≠ []) (hW2 : W2 ≠ [])
    (h : sum_letter_positions W1 % pool_size = sum_letter_positions W2 % pool_size) :
    mainModel domain login year pool pool_size W1 p_seq classic
      = mainModel domain login year pool pool_size W2 p_seq classic := by
  simp only [mainModel]
  rw [if_neg hW1, if_neg hW2,
    derive_pepper_congr domain login (wsStrip year) pool pool_size W1 W2 p_seq classic h]

/-- Witness for C10: peppers "a" and "d" with pool size 3 (1 ≡ 4 mod 3). -/
theorem c10_pepper_only_mod_pool_size_witness :
    ("a".toList ≠ ([] : List Char) ∧ "d".toList ≠ ([] : List Char)
      ∧ sum_letter_positions "a".toList % 3 = sum_letter_positions "d".toList % 3)
    ∧ mainModel "yandex.ru".toList "user@gmail.com".toList "2005".toList
        ["Alpha12345".toList, "Beta678901".toList, "Gamma23456".toList] 3
        "a".toList "!@#$%^&*+?".toList false
      = mainModel "yandex.ru".toList "user@gmail.com".toList "2005".toList
        ["Alpha12345".toList, "Beta678901".toList, "Gamma23456".toList] 3
        "d".toList "!@#$%^&*+?".toList false :=
  ⟨⟨by decide, by decide, by decide⟩,
    c10_pepper_only_mod_pool_size "yandex.ru".toList "user@gmail.com".toList
      "2005".toList ["Alpha12345".toList, "Beta678901".toList, "Gamma23456".toList]
      3 "a".toList "d".toList "!@#$%^&*+?".toList false (by decide) (by decide)
      (by decide)⟩

/-- Unfolding equation of `bsbAux` on a cons cell. -/
theorem bsbAux_cons (q : List Char) (qi : Nat) (prev a : Char) (rest : List Char) :
    bsbAux q qi prev (a :: rest)
      = if is_letter a then
          if !is_letter prev || (is_upper prev != is_upper a) then
            q.getD (qi % q.length) 'x' :: a :: bsbAux q (qi + 1) a rest
          else a :: bsbAux q qi a rest
        else a :: bsbAux q qi a rest := rfl

/-- The strengthener never shortens its input: each source character is
emitted, sometimes preceded by an inserted Q character. -/
theorem bsbAux_length_ge (q : List Char) :
    ∀ (l : List Char) (qi : Nat) (prev : Char), l.length ≤ (bsbAux q qi prev l).length := by
  intro l
  induction l with
  | nil => intro qi prev; simp [bsbAux]
  | cons a rest ih =>
    intro qi prev
    rw [bsbAux_cons]
    split
    · split
      · have := ih (qi + 1) a
        simp only [List.length_cons]
        omega
      · have := ih qi a
        simp only [List.length_cons]
        omega
    · have := ih qi a
      simp only [List.length_cons]
      omega

/-- If some letter of the input follows a non-letter or a letter of the
other case, the strengthener inserts at least one Q character. -/
theorem bsbAux_length_gt (q : List Char) :
    ∀ (l : List Char), hasQualPair l = true →
      ∀ (qi : Nat) (prev : Char), l.length < (bsbAux q qi prev l).length := by
  intro l
  induction l with
  | nil => intro h; simp [hasQualPair] at h
  | cons a rest ih =>
    intro h qi prev
    cases rest with
    | nil => simp [hasQualPair] at h
    | cons b rest2 =>
      simp only [hasQualPair, Bool.or_eq_true, Bool.and_eq_true] at h
      rcases h with ⟨hb, hcond⟩ | htail
      · have hcond2 : (!is_letter a || (is_upper a != is_upper b)) = true := by
          rw [Bool.or_eq_true]
          exact hcond
        have hrec : ∀ qi2 : Nat,
            rest2.length + 2 ≤ (bsbAux q qi2 a (b :: rest2)).length := by
          intro qi2
          rw [bsbAux_cons, if_pos hb, if_pos hcond2]
          have := bsbAux_length_ge q rest2 (qi2 + 1) b
          simp only [List.length_cons]
          omega
        rw [bsbAux_cons]
        split
        · split
          · have := hrec (qi + 1)
            simp only [List.length_cons]
            omega
          · have := hrec qi
            simp only [List.length_cons]
            omega
        · have := hrec qi
          simp only [List.length_cons]
          omega
      · have key := ih htail
        rw [bsbAux_cons]
        split
        · split
          · have := key (qi + 1) a
            simp only [List.length_cons] at this ⊢
            omega
          · have := key qi a
            simp only [List.length_cons] at this ⊢
            omega
        · have := key qi a
          simp only [List.length_cons] at this ⊢
          omega

/-- C7: for every base S0 and non-empty Q sequence, the strengthened base is
at least as long as S0, and strictly longer whenever S0 contains a letter
preceded by a non-letter or by a letter of the opposite case. -/
theorem c7_strengthen_growth (s0 q_seq : List Char) (_hq : q_seq ≠ []) :
    s0.length ≤ (build_strengthened_base s0 q_seq).length
    ∧ (hasQualPair s0 = true →
        s0.length < (build_strengthened_base s0 q_seq).length) :=
  ⟨bsbAux_length_ge q_seq s0 0 ' ', fun h => bsbAux_length_gt q_seq s0 h 0 ' '⟩

/-- Witness for C7: base `ab1C` (the letter C follows the digit 1) and
Q sequence `!@`. -/
theorem c7_strengthen_growth_witness :
    ("!@".toList ≠ ([] : List Char) ∧ hasQualPair "ab1C".toList = true)
    ∧ "ab1C".toList.length ≤ (build_strengthened_base "ab1C".toList "!@".toList).length
    ∧ "ab1C".toList.length < (build_strengthened_base "ab1C".toList "!@".toList).length :=
  ⟨⟨by decide, by decide⟩,
    (c7_strengthen_growth "ab1C".toList "!@".toList (by decide)).1,
    (c7_strengthen_growth "ab1C".toList "!@".toList (by decide)).2 (by decide)⟩

end Passgen
